import Mathlib

/-!
Verification of the photo-organizer core (src/main.rs): the metadata index
builder, the three-tier timestamp resolver, and the concurrent collision-safe
placement engine with its reservation set.  The Rust functions are shallowly
embedded as executable Lean definitions; file paths are strings, the global
reservation `HashSet` and the destination-disk contents are string lists
threaded through an explicit state, and the chrono `DateTime<Utc>` instants are
(seconds, nanoseconds) pairs on the proleptic Gregorian calendar.
-/

namespace TakeoutExifFix

/-! ### File-name splitting (Rust `Path::file_stem` / `Path::extension`)

A file name is split at the last dot: the extension is the part after the
last dot, unless there is no dot or the only part before the last dot is
empty (a leading-dot name such as `.hidden`), in which case there is no
extension.  A trailing dot yields the empty extension, as in Rust. -/

/-- Scan a (reversed) character list for the first dot, returning the
characters before it and the rest.  Applied to a reversed file name this
locates the last dot of the original name. -/
def breakAtDot : List Char → Option (List Char × List Char)
  | [] => none
  | c :: cs =>
    if c = '.' then some ([], cs)
    else (breakAtDot cs).map (fun p => (c :: p.1, p.2))

/-- Rust semantics of `Path::file_stem` and `Path::extension` on a plain
file name (no directory separators): returns `(stem, extension?)`. -/
def splitFileName (name : String) : String × Option String :=
  match breakAtDot name.data.reverse with
  | none => (name, none)
  | some (extRev, stemRev) =>
    if stemRev.isEmpty then (name, none)
    else (⟨stemRev.reverse⟩, some ⟨extRev.reverse⟩)

/-- Rust `Path::file_stem` on a plain file name. -/
def file_stem (name : String) : String := (splitFileName name).1

/-- Rust `Path::extension` on a plain file name. -/
def extension (name : String) : Option String := (splitFileName name).2

/-- Rust `Path::join` of a directory and a relative file name. -/
def pjoin (dir name : String) : String := dir ++ "/" ++ name

example : extension "IMG_01.JPG" = some "JPG" := by decide
example : extension "archive" = none := by decide
example : extension ".hidden" = none := by decide
example : extension "a.b.c" = some "c" ∧ file_stem "a.b.c" = "a.b" := by decide

/-! ### Injectivity of decimal rendering

The collision-search loop generates candidate names `<stem>_<counter>` with the
counter rendered in decimal (`format!` on a number, i.e. `Nat.repr`).  Distinct
counters must give distinct names, and the name supply must be inexhaustible;
both reduce to the injectivity of `Nat.repr`, proved here by exhibiting the
decimal decoder as a left inverse. -/

/-- Decode a decimal digit string produced by `Nat.toDigits`. -/
def decodeDigits (cs : List Char) : Nat :=
  cs.foldl (fun a c => 10 * a + (c.toNat - 48)) 0

theorem decodeDigits_append (l : List Char) (c : Char) :
    decodeDigits (l ++ [c]) = 10 * decodeDigits l + (c.toNat - 48) := by
  simp [decodeDigits, List.foldl_append]

theorem toDigitsCore_acc (f : Nat) :
    ∀ (n : Nat) (acc : List Char), 0 < f →
      Nat.toDigitsCore 10 f n acc = Nat.toDigitsCore 10 f n [] ++ acc := by
  induction f with
  | zero => intro n acc h; exact absurd h (by decide)
  | succ f ih =>
    intro n acc _
    simp only [Nat.toDigitsCore]
    by_cases hz : n / 10 = 0
    · simp [hz]
    · simp only [hz, if_false]
      rcases Nat.eq_zero_or_pos f with hf | hf
      · subst hf; simp [Nat.toDigitsCore]
      · rw [ih (n / 10) (Nat.digitChar (n % 10) :: acc) hf,
          ih (n / 10) [Nat.digitChar (n % 10)] hf, List.append_assoc]
        rfl

theorem digitChar_toNat (m : Nat) (h : m < 10) :
    (Nat.digitChar m).toNat - 48 = m := by
  interval_cases m <;> decide

theorem decode_toDigitsCore (f : Nat) :
    ∀ n : Nat, n < f → decodeDigits (Nat.toDigitsCore 10 f n []) = n := by
  induction f with
  | zero => intro n h; exact absurd h (Nat.not_lt_zero n)
  | succ f ih =>
    intro n hn
    simp only [Nat.toDigitsCore]
    by_cases hz : n / 10 = 0
    · have hlt : n < 10 := by omega
      have : n % 10 = n := Nat.mod_eq_of_lt hlt
      simp [hz, decodeDigits, this, digitChar_toNat n hlt]
    · have hpos : 0 < n := by
        rcases Nat.eq_zero_or_pos n with h0 | h0
        · subst h0; simp at hz
        · exact h0
      have hdiv : n / 10 < n := Nat.div_lt_self hpos (by decide)
      have hf : n / 10 < f := by omega
      simp only [hz, if_false]
      rw [toDigitsCore_acc f (n / 10) [Nat.digitChar (n % 10)] (by omega),
        decodeDigits_append, ih (n / 10) hf, digitChar_toNat (n % 10) (Nat.mod_lt n (by decide))]
      omega

theorem natRepr_injective : Function.Injective Nat.repr := by
  intro m n h
  have hm : decodeDigits (Nat.toDigits 10 m) = m :=
    decode_toDigitsCore (m + 1) m (Nat.lt_succ_self m)
  have hn : decodeDigits (Nat.toDigits 10 n) = n :=
    decode_toDigitsCore (n + 1) n (Nat.lt_succ_self n)
  have hd : Nat.toDigits 10 m = Nat.toDigits 10 n := by
    have : (Nat.toDigits 10 m).asString = (Nat.toDigits 10 n).asString := h
    simpa [List.asString] using congrArg String.data this
  rw [← hm, hd, hn]

/-! ### Instants and the civil calendar (chrono `DateTime<Utc>`)

A chrono `DateTime<Utc>` is modelled as a pair of Unix seconds and a
sub-second nanosecond component.  The `year()`/`month()` accessors and the
`timestamp()` conversion follow the proleptic Gregorian calendar; the
conversions between day numbers and civil dates below are the standard
`civil_from_days` / `days_from_civil` algorithms, which agree with chrono on
its whole supported range. -/

/-- Model of chrono `DateTime<Utc>`: Unix seconds and nanoseconds. -/
structure Instant where
  secs : Int
  nanos : Nat
deriving DecidableEq

/-- Convert a count of days since 1970-01-01 to a civil `(year, month, day)`
triple of the proleptic Gregorian calendar. -/
def civilFromDays (z0 : Int) : Int × Nat × Nat :=
  let z := z0 + 719468
  let era : Int := z.fdiv 146097
  let doe : Nat := (z - era * 146097).toNat
  let yoe : Nat := (doe - doe / 1460 + doe / 36524 - doe / 146096) / 365
  let y : Int := (yoe : Int) + era * 400
  let doy : Nat := doe - (365 * yoe + yoe / 4 - yoe / 100)
  let mp : Nat := (5 * doy + 2) / 153
  let d : Nat := doy - (153 * mp + 2) / 5 + 1
  let m : Nat := if mp < 10 then mp + 3 else mp - 9
  (if m ≤ 2 then y + 1 else y, m, d)

/-- Convert a civil `(year, month, day)` date to a count of days since
1970-01-01 (proleptic Gregorian). -/
def daysFromCivil (y : Int) (m d : Nat) : Int :=
  let y' : Int := if m ≤ 2 then y - 1 else y
  let era : Int := y'.fdiv 400
  let yoe : Nat := (y' - era * 400).toNat
  let mp : Nat := if 2 < m then m - 3 else m + 9
  let doy : Nat := (153 * mp + 2) / 5 + d - 1
  let doe : Nat := yoe * 365 + yoe / 4 - yoe / 100 + doy
  era * 146097 + (doe : Int) - 719468

/-- Calendar year of an instant, as chrono `DateTime::year()`. -/
def yearOf (t : Instant) : Int := (civilFromDays (t.secs.fdiv 86400)).1

/-- Calendar month (1–12) of an instant, as chrono `DateTime::month()`. -/
def monthOf (t : Instant) : Nat := (civilFromDays (t.secs.fdiv 86400)).2.1

/-- Unix-seconds view of an instant, as chrono `DateTime::timestamp()`:
the nanosecond component is dropped. -/
def timestampOf (t : Instant) : Int := t.secs

/-- English month names, translated from the `match month` table in
`organize_and_update_file` (src/main.rs lines 215–229). -/
def monthName (month : Nat) : String :=
  match month with
  | 1 => "January"
  | 2 => "February"
  | 3 => "March"
  | 4 => "April"
  | 5 => "May"
  | 6 => "June"
  | 7 => "July"
  | 8 => "August"
  | 9 => "September"
  | 10 => "October"
  | 11 => "November"
  | 12 => "December"
  | _ => "Unknown"

example : civilFromDays 0 = (1970, 1, 1) := by decide
example : civilFromDays 19188 = (2022, 7, 15) := by decide
example : daysFromCivil 2022 7 15 = 19188 := by decide

/-! ### Parsing `YYYY-MM-DD HH:MM:SS` (chrono `NaiveDateTime::parse_from_str`)

The EXIF `DateTimeOriginal` display value is parsed with the format string
`%Y-%m-%d %H:%M:%S`; the model below accepts the canonical zero-padded form
(which is what the exif crate's display value produces) and enforces chrono's
calendar validity checks. -/

/-- Leap-year test of the proleptic Gregorian calendar. -/
def isLeapYear (y : Int) : Bool :=
  (y % 4 == 0 && y % 100 != 0) || y % 400 == 0

/-- Number of days in a month, with month 2 depending on the leap year. -/
def daysInMonth (y : Int) (m : Nat) : Nat :=
  match m with
  | 1 => 31
  | 2 => if isLeapYear y then 29 else 28
  | 3 => 31
  | 4 => 30
  | 5 => 31
  | 6 => 30
  | 7 => 31
  | 8 => 31
  | 9 => 30
  | 10 => 31
  | 11 => 30
  | 12 => 31
  | _ => 0

/-- A parsed naive (timezone-free) calendar date-time. -/
structure NaiveDT where
  year : Int
  month : Nat
  day : Nat
  hour : Nat
  minute : Nat
  second : Nat
deriving DecidableEq

/-- Decimal-digit test. -/
def isDigitChar (c : Char) : Bool := '0' ≤ c && c ≤ '9'

/-- Numeric value of a decimal digit character. -/
def digitVal (c : Char) : Nat := c.toNat - 48

/-- Model of `NaiveDateTime::parse_from_str(s, "%Y-%m-%d %H:%M:%S")` on the
canonical zero-padded rendering produced by the exif crate. -/
def parse_from_str (s : String) : Option NaiveDT :=
  match s.data with
  | [y1, y2, y3, y4, '-', m1, m2, '-', d1, d2, ' ',
     h1, h2, ':', mi1, mi2, ':', s1, s2] =>
    if [y1, y2, y3, y4, m1, m2, d1, d2, h1, h2, mi1, mi2, s1, s2].all isDigitChar then
      let y : Int :=
        (digitVal y1 * 1000 + digitVal y2 * 100 + digitVal y3 * 10 + digitVal y4 : Nat)
      let mo := digitVal m1 * 10 + digitVal m2
      let d := digitVal d1 * 10 + digitVal d2
      let h := digitVal h1 * 10 + digitVal h2
      let mi := digitVal mi1 * 10 + digitVal mi2
      let se := digitVal s1 * 10 + digitVal s2
      if 1 ≤ mo && mo ≤ 12 && 1 ≤ d && d ≤ daysInMonth y mo
          && h ≤ 23 && mi ≤ 59 && se ≤ 59 then
        some ⟨y, mo, d, h, mi, se⟩
      else none
    else none
  | _ => none

/-- Convert a naive date-time to the UTC instant with the same civil fields:
`Utc.from_local_datetime` applies no offset, so the instant is the naive
fields read directly on the UTC timeline. -/
def naiveToInstant (ndt : NaiveDT) : Instant :=
  ⟨daysFromCivil ndt.year ndt.month ndt.day * 86400
    + ((ndt.hour * 3600 + ndt.minute * 60 + ndt.second : Nat) : Int), 0⟩

example : parse_from_str "2022-07-15 12:34:56" =
    some ⟨2022, 7, 15, 12, 34, 56⟩ := by decide
example : parse_from_str "2022:07:15 12:34:56" = none := by decide
example : parse_from_str "2022-02-30 00:00:00" = none := by decide
example : naiveToInstant ⟨2022, 7, 15, 12, 34, 56⟩ = ⟨1657888496, 0⟩ := by decide

/-! ### Epoch-seconds conversion (chrono `DateTime::from_timestamp`)

`DateTime::from_timestamp(secs, 0)` yields the UTC instant at `secs` Unix
seconds, or `None` when `secs` falls outside chrono's representable date
range (`NaiveDate::MIN` = -262144-01-01 to `NaiveDate::MAX` = 262142-12-31). -/

/-- Smallest Unix second representable by chrono. -/
def chronoMinTimestamp : Int := daysFromCivil (-262144) 1 1 * 86400

/-- Largest Unix second representable by chrono. -/
def chronoMaxTimestamp : Int := daysFromCivil 262142 12 31 * 86400 + 86399

/-- Model of `DateTime::<Utc>::from_timestamp(secs, 0)`. -/
def fromTimestamp (secs : Int) : Option Instant :=
  if chronoMinTimestamp ≤ secs ∧ secs ≤ chronoMaxTimestamp then
    some ⟨secs, 0⟩
  else none

example : fromTimestamp 1657843200 = some ⟨1657843200, 0⟩ := by decide

/-! ### Reservation state and the collision-safe placement engine

The process-wide `Mutex<HashSet<String>>` of reserved destination paths and
the destination filesystem contents are modelled as two string lists in an
explicit state.  `get_output_path` holds the lock for its whole body, so each
call is a single atomic transition of this state. -/

/-- State shared by all placement tasks: the reserved-paths set guarded by
the global mutex, and the set of paths existing on disk. -/
structure FsState where
  reserved : List String
  disk : List String
deriving DecidableEq

/-- A path is free when it is neither reserved nor already on disk: the
conjunction checked by both `get_output_path` and `find_unique_filename`. -/
def isFree (s : FsState) (p : String) : Prop :=
  p ∉ s.reserved ∧ p ∉ s.disk

instance (s : FsState) (p : String) : Decidable (isFree s p) := by
  unfold isFree; infer_instance

/-- Candidate file name `<stem>_<counter>` or `<stem>_<counter>.<ext>` built
by the body of `find_unique_filename` (src/main.rs lines 168–177), with the
`unwrap_or` defaults for a missing stem or extension. -/
def candidateName (orig : String) (counter : Nat) : String :=
  let stem := if orig.isEmpty then "unnamed_file" else file_stem orig
  let ext := (extension orig).getD ""
  if ext.isEmpty then stem ++ "_" ++ Nat.repr counter
  else stem ++ "_" ++ Nat.repr counter ++ "." ++ ext

theorem candidateName_inj (orig : String) {c₁ c₂ : Nat}
    (h : candidateName orig c₁ = candidateName orig c₂) : c₁ = c₂ := by
  unfold candidateName at h
  apply natRepr_injective
  apply String.ext
  by_cases he : ((extension orig).getD "").isEmpty = true
  · rw [if_pos he, if_pos he] at h
    have hd := congrArg String.data h
    simp only [String.data_append, List.append_assoc] at hd
    exact List.append_cancel_left (List.append_cancel_left hd)
  · rw [if_neg he, if_neg he] at h
    have hd := congrArg String.data h
    simp only [String.data_append, List.append_assoc] at hd
    exact List.append_cancel_right
      (List.append_cancel_left (List.append_cancel_left hd))

theorem pjoin_inj_right {dir n₁ n₂ : String} (h : pjoin dir n₁ = pjoin dir n₂) :
    n₁ = n₂ := by
  unfold pjoin at h
  have hd := congrArg String.data h
  simp only [String.data_append, List.append_assoc] at hd
  exact String.ext (List.append_cancel_left (List.append_cancel_left hd))

/-- The collision search never exhausts its name supply: the candidate names
are pairwise distinct while the reserved set and the disk are finite, so some
counter gives a free name. -/
theorem exists_free_candidate (s : FsState) (dir orig : String) :
    ∃ n : Nat, isFree s (pjoin dir (candidateName orig (n + 1))) := by
  by_contra hall
  push_neg at hall
  have hmem : ∀ n : Nat, pjoin dir (candidateName orig (n + 1)) ∈ s.reserved ++ s.disk := by
    intro n
    have h := hall n
    unfold isFree at h
    rw [List.mem_append]
    tauto
  have hinj : Function.Injective (fun n : Nat => pjoin dir (candidateName orig (n + 1))) := by
    intro a b hab
    have := candidateName_inj orig (pjoin_inj_right hab)
    omega
  have hfin : (Set.range fun n : Nat => pjoin dir (candidateName orig (n + 1))).Finite :=
    Set.Finite.subset (s.reserved ++ s.disk).finite_toSet (by rintro x ⟨n, rfl⟩; exact hmem n)
  exact Set.infinite_range_of_injective hinj hfin

/-- Model of `find_unique_filename` (src/main.rs lines 165–185): starting
from counter 1 and incrementing, return the first candidate that is neither
reserved nor on disk — that is, the candidate at the least free counter. -/
def find_unique_filename (base_dir orig : String) (s : FsState) : String :=
  pjoin base_dir (candidateName orig (Nat.find (exists_free_candidate s base_dir orig) + 1))

/-- Model of `get_output_path` (src/main.rs lines 194–208).  The whole body
runs under the reservation mutex, so it is one atomic transition: the desired
base name is used if free, otherwise the collision search supplies the first
free candidate (the loop re-check always passes because the lock is held and
the state cannot change in between); the chosen path is inserted into the
reserved set before the lock is released. -/
def get_output_path (photoName target_dir : String) (s : FsState) : String × FsState :=
  let base := pjoin target_dir (if photoName.isEmpty then "unnamed_file" else photoName)
  let output_path := if isFree s base then base else find_unique_filename target_dir photoName s
  (output_path, ⟨output_path :: s.reserved, s.disk⟩)

/-- Filesystem side effects performed by `organize_and_update_file` after the
destination path is claimed. -/
inductive Effect where
  | createDirAll (dir : String)
  | copy (src dst : String)
  | setFileTimes (path : String) (atimeSecs : Int) (atimeNanos : Nat)
      (mtimeSecs : Int) (mtimeNanos : Nat)
deriving DecidableEq

/-- Lower-case one character, as Rust `str::to_lowercase` acts on the ASCII
range (file-name extensions are ASCII in every case relevant here). -/
def asciiToLower (c : Char) : Char :=
  if 'A' ≤ c ∧ c ≤ 'Z' then Char.ofNat (c.toNat + 32) else c

/-- Model of Rust `str::to_lowercase`. -/
def strToLower (s : String) : String := ⟨s.data.map asciiToLower⟩

example : strToLower "JPG" = "jpg" := by decide
example : strToLower "jpg" = "jpg" := by decide

/-- Destination directory derived by `organize_and_update_file`
(src/main.rs lines 211–240): `<root>/<year>/<month name>/<lower-cased
extension, or "no_ext" when the name has none>`. -/
def destTargetDir (photoName : String) (parsed_time : Instant)
    (output_directory : String) : String :=
  let year_dir := pjoin output_directory (Int.repr (yearOf parsed_time))
  let month_dir := pjoin year_dir (monthName (monthOf parsed_time))
  match extension photoName with
  | some ext => pjoin month_dir (strToLower ext)
  | none => pjoin month_dir "no_ext"

/-- Model of the success path of `organize_and_update_file` (src/main.rs
lines 211–251): derive the destination directory, claim an output path, copy
the bytes (the copy makes the destination exist on disk), and set both file
times to the second-resolution resolved timestamp.  Returns the effect trace,
the claimed path, and the successor state. -/
def organize_and_update_file (photoName : String) (parsed_time : Instant)
    (output_directory : String) (s : FsState) : List Effect × String × FsState :=
  let year_dir := pjoin output_directory (Int.repr (yearOf parsed_time))
  let month_dir := pjoin year_dir (monthName (monthOf parsed_time))
  let target_dir := destTargetDir photoName parsed_time output_directory
  let r := get_output_path photoName target_dir s
  let output_path := r.1
  let unix_timestamp := timestampOf parsed_time
  ([Effect.createDirAll month_dir, Effect.createDirAll target_dir,
    Effect.copy photoName output_path,
    Effect.setFileTimes output_path unix_timestamp 0 unix_timestamp 0],
   output_path,
   ⟨r.2.reserved, output_path :: r.2.disk⟩)

/-- One placement task of the worker pool: a source file name, its resolved
timestamp, the output root, and whether the copy after the claim succeeds
(a failed copy abandons the file but keeps the reservation). -/
structure Task where
  photoName : String
  time : Instant
  outDir : String
  copyOk : Bool
deriving DecidableEq

/-- Run one placement task on the shared state. -/
def runTask (s : FsState) (tk : Task) : String × FsState :=
  let target_dir := destTargetDir tk.photoName tk.time tk.outDir
  let r := get_output_path tk.photoName target_dir s
  (r.1, if tk.copyOk then ⟨r.2.reserved, r.1 :: r.2.disk⟩ else r.2)

/-- Run a sequence of placement tasks, returning every claimed destination
path.  Because each claim is atomic under the one mutex, any concurrent
execution of the pool is equivalent to some sequence of these transitions. -/
def runTasks (s : FsState) : List Task → List String × FsState
  | [] => ([], s)
  | tk :: rest =>
    ((runTask s tk).1 :: (runTasks (runTask s tk).2 rest).1,
     (runTasks (runTask s tk).2 rest).2)

/-! ### The timestamp resolver and the metadata index builder -/

/-- Source tier that produced a resolved timestamp. -/
inductive TimeSource where
  | sidecarMetadata
  | embeddedCaptureTag
  | filesystemTime
deriving DecidableEq

/-- Observable facts about one candidate photo file: its base name, whether
opening it and reading its filesystem metadata succeed, the display value of
its EXIF `DateTimeOriginal` field when the EXIF container is readable and the
field present, its filesystem creation time when the host filesystem supports
one, and its modification time (which every host filesystem provides for an
existing readable file). -/
structure FileInfo where
  name : String
  readable : Bool
  exifDateTimeOriginal : Option String
  created : Option Instant
  modified : Instant
deriving DecidableEq

/-- Lookup in the metadata index, modelled as first match in an
associativity list whose newest insertions are at the front (so the
`HashMap` last-write-wins behaviour is preserved). -/
def lookupIndex (m : List (String × Instant)) (k : String) : Option Instant :=
  (m.find? (fun kv => kv.1 == k)).map (fun kv => kv.2)

/-- Model of `process_photo_file_with_creation_time` (src/main.rs lines
154–161): filesystem creation time, falling back to modification time. -/
def process_photo_file_with_creation_time (fi : FileInfo) : Option Instant :=
  if fi.readable then some (fi.created.getD fi.modified) else none

/-- Model of `process_photo_file` (src/main.rs lines 124–151): an EXIF
`DateTimeOriginal` value parsing as `YYYY-MM-DD HH:MM:SS` is treated as UTC;
a missing container, missing field, or unparseable value falls through to
filesystem time. -/
def process_photo_file (fi : FileInfo) : Option (Instant × TimeSource) :=
  if fi.readable then
    match fi.exifDateTimeOriginal with
    | some dto =>
      match parse_from_str dto with
      | some ndt => some (naiveToInstant ndt, TimeSource.embeddedCaptureTag)
      | none =>
        (process_photo_file_with_creation_time fi).map
          (fun t => (t, TimeSource.filesystemTime))
    | none =>
      (process_photo_file_with_creation_time fi).map
        (fun t => (t, TimeSource.filesystemTime))
  else none

/-- Timestamp selection of `process_directory_parallel` (src/main.rs lines
103–120): a metadata-index hit wins outright, otherwise the EXIF/filesystem
chain of `process_photo_file` runs. -/
def process_file (index : List (String × Instant)) (fi : FileInfo) :
    Option (Instant × TimeSource) :=
  match lookupIndex index fi.name with
  | some t => some (t, TimeSource.sidecarMetadata)
  | none => process_photo_file fi

/-- Numeric value of a decimal digit string. -/
def digitsToNat (cs : List Char) : Nat :=
  cs.foldl (fun a c => 10 * a + digitVal c) 0

/-- Model of Rust `str::parse::<i64>`: an optional sign followed by one or
more decimal digits, rejected on any other character or on 64-bit signed
overflow. -/
def parseI64 (s : String) : Option Int :=
  let p : Int × List Char :=
    match s.data with
    | '+' :: rest => (1, rest)
    | '-' :: rest => (-1, rest)
    | rest => (1, rest)
  if p.2 ≠ [] ∧ p.2.all isDigitChar then
    let v : Int := p.1 * (digitsToNat p.2 : Int)
    if -(2 ^ 63) ≤ v ∧ v ≤ 2 ^ 63 - 1 then some v else none
  else none

example : parseI64 "1657843200" = some 1657843200 := by decide
example : parseI64 "not-a-number" = none := by decide
example : parseI64 "-42" = some (-42) := by decide

/-- Parse outcome of one sidecar description file: unreadable, structurally
invalid JSON, or parsed JSON with its optional string fields `title` and
`photoTakenTime.timestamp` (absent or non-string fields are `none`). -/
inductive SidecarFile where
  | unreadable
  | invalidJson
  | json (title : Option String) (photoTakenTimestamp : Option String)
deriving DecidableEq

/-- Index entry extracted from one sidecar file by the body of
`parse_metadata_files` (src/main.rs lines 69–87): both fields must be
present, the timestamp string must parse as an `i64`, and the epoch-seconds
conversion must be in range; any failure yields no entry. -/
def sidecarEntry : SidecarFile → Option (String × Instant)
  | SidecarFile.json (some title) (some ts) =>
    match parseI64 ts with
    | some n =>
      match fromTimestamp n with
      | some t => some (title, t)
      | none => none
    | none => none
  | _ => none

/-- Model of `parse_metadata_files` (src/main.rs lines 59–91): fold over the
sidecar files, inserting an index entry exactly for those that fully parse. -/
def parse_metadata_files (files : List SidecarFile) : List (String × Instant) :=
  files.foldl
    (fun m f =>
      match sidecarEntry f with
      | some kv => kv :: m
      | none => m)
    []

/-- Extension filter of `process_directory_parallel` (src/main.rs lines
99–101): a candidate file is kept unless its extension is exactly `json`,
`zip`, or `html`. -/
def keepsForPlacement (name : String) : Bool :=
  !(extension name == some "json") && !(extension name == some "zip")
    && !(extension name == some "html")

/-! ### Placement-engine lemmas -/

theorem find_unique_filename_free (base_dir orig : String) (s : FsState) :
    isFree s (find_unique_filename base_dir orig s) := by
  unfold find_unique_filename
  exact Nat.find_spec (exists_free_candidate s base_dir orig)

theorem get_output_path_free (photoName target_dir : String) (s : FsState) :
    isFree s (get_output_path photoName target_dir s).1 := by
  unfold get_output_path
  dsimp only
  split <;> split <;> first
    | assumption
    | exact find_unique_filename_free target_dir photoName s

theorem get_output_path_state (photoName target_dir : String) (s : FsState) :
    (get_output_path photoName target_dir s).2 =
      ⟨(get_output_path photoName target_dir s).1 :: s.reserved, s.disk⟩ := rfl

theorem runTask_free (s : FsState) (tk : Task) : isFree s (runTask s tk).1 :=
  get_output_path_free tk.photoName (destTargetDir tk.photoName tk.time tk.outDir) s

theorem runTask_reserved (s : FsState) (tk : Task) :
    (runTask s tk).2.reserved = (runTask s tk).1 :: s.reserved := by
  unfold runTask
  dsimp only
  by_cases h : tk.copyOk <;> simp [h, get_output_path_state]

theorem runTasks_not_mem_reserved (ts : List Task) :
    ∀ s : FsState, ∀ q ∈ (runTasks s ts).1, q ∉ s.reserved := by
  induction ts with
  | nil => intro s q hq; simp [runTasks] at hq
  | cons tk rest ih =>
    intro s q hq
    simp only [runTasks, List.mem_cons] at hq
    rcases hq with rfl | hq
    · exact (runTask_free s tk).1
    · intro hmem
      exact ih (runTask s tk).2 q hq
        (by rw [runTask_reserved]; exact List.mem_cons_of_mem _ hmem)

theorem runTasks_nodup (ts : List Task) : ∀ s : FsState, (runTasks s ts).1.Nodup := by
  induction ts with
  | nil => intro s; simp [runTasks]
  | cons tk rest ih =>
    intro s
    simp only [runTasks, List.nodup_cons]
    refine ⟨fun hmem => ?_, ih _⟩
    exact runTasks_not_mem_reserved rest (runTask s tk).2 _ hmem
      (by rw [runTask_reserved]; exact List.mem_cons_self _ _)

theorem runTasks_reserved_mono (ts : List Task) :
    ∀ (s : FsState), ∀ p ∈ s.reserved, p ∈ (runTasks s ts).2.reserved := by
  induction ts with
  | nil => intro s p hp; simpa [runTasks] using hp
  | cons tk rest ih =>
    intro s p hp
    simp only [runTasks]
    exact ih (runTask s tk).2 p
      (by rw [runTask_reserved]; exact List.mem_cons_of_mem _ hp)

theorem runTasks_claimed_reserved (ts : List Task) :
    ∀ s : FsState, ∀ p ∈ (runTasks s ts).1, p ∈ (runTasks s ts).2.reserved := by
  induction ts with
  | nil => intro s p hp; simp [runTasks] at hp
  | cons tk rest ih =>
    intro s p hp
    simp only [runTasks, List.mem_cons] at hp ⊢
    rcases hp with rfl | hp
    · exact runTasks_reserved_mono rest (runTask s tk).2 _
        (by rw [runTask_reserved]; exact List.mem_cons_self _ _)
    · exact ih (runTask s tk).2 _ hp

/-! ### The claims -/

/-- C1: `get_output_path` never returns the same destination path to two
distinct calls.  First conjunct: each call is one atomic transition that
returns a path that was neither reserved nor on disk at check time and whose
insertion into the reservation set happens in the same transition.  Second
conjunct: any number of placement tasks — in particular N concurrent tasks
targeting one directory with colliding base names, serialized in any order by
the single reservation lock — claim pairwise-distinct destination paths. -/
theorem claim_C1 :
    (∀ (photoName target_dir : String) (s : FsState),
       (get_output_path photoName target_dir s).1 ∉ s.reserved ∧
       (get_output_path photoName target_dir s).1 ∉ s.disk ∧
       (get_output_path photoName target_dir s).2 =
         ⟨(get_output_path photoName target_dir s).1 :: s.reserved, s.disk⟩) ∧
    (∀ (s : FsState) (tasks : List Task), (runTasks s tasks).1.Nodup) := by
  constructor
  · intro photoName target_dir s
    exact ⟨(get_output_path_free photoName target_dir s).1,
      (get_output_path_free photoName target_dir s).2,
      get_output_path_state photoName target_dir s⟩
  · intro s tasks
    exact runTasks_nodup tasks s

/-- C1 witness: three colliding placement tasks claim pairwise-distinct
paths, and a concrete claim is fresh and atomically recorded. -/
theorem claim_C1_witness :
    ((get_output_path "A.jpg" "d" ⟨["d/B.jpg"], ["d/C.jpg"]⟩).1 ∉ ["d/B.jpg"] ∧
     (get_output_path "A.jpg" "d" ⟨["d/B.jpg"], ["d/C.jpg"]⟩).1 ∉ ["d/C.jpg"] ∧
     (get_output_path "A.jpg" "d" ⟨["d/B.jpg"], ["d/C.jpg"]⟩).2 =
       ⟨(get_output_path "A.jpg" "d" ⟨["d/B.jpg"], ["d/C.jpg"]⟩).1 :: ["d/B.jpg"],
        ["d/C.jpg"]⟩) ∧
    (runTasks ⟨[], []⟩
      [⟨"A.jpg", ⟨1657843200, 0⟩, "out", true⟩,
       ⟨"A.jpg", ⟨1657843200, 0⟩, "out", true⟩,
       ⟨"A.jpg", ⟨1657843200, 0⟩, "out", false⟩]).1.Nodup :=
  ⟨claim_C1.1 "A.jpg" "d" ⟨["d/B.jpg"], ["d/C.jpg"]⟩,
   claim_C1.2 ⟨[], []⟩
     [⟨"A.jpg", ⟨1657843200, 0⟩, "out", true⟩,
      ⟨"A.jpg", ⟨1657843200, 0⟩, "out", true⟩,
      ⟨"A.jpg", ⟨1657843200, 0⟩, "out", false⟩]⟩

/-- C8: the reservation set only ever grows.  Each task inserts its claimed
path and removes nothing — the equation holds whether or not the later copy
succeeds (`tk.copyOk` is arbitrary) — and across a whole run every previously
reserved path and every claimed path is still reserved at the end; likewise
`organize_and_update_file` only prepends its claimed path. -/
theorem claim_C8 :
    (∀ (s : FsState) (tk : Task),
       (runTask s tk).2.reserved = (runTask s tk).1 :: s.reserved) ∧
    (∀ (s : FsState) (tasks : List Task),
       (∀ p ∈ s.reserved, p ∈ (runTasks s tasks).2.reserved) ∧
       (∀ p ∈ (runTasks s tasks).1, p ∈ (runTasks s tasks).2.reserved)) ∧
    (∀ (photoName : String) (t : Instant) (outDir : String) (s : FsState),
       (organize_and_update_file photoName t outDir s).2.2.reserved =
         (organize_and_update_file photoName t outDir s).2.1 :: s.reserved) := by
  refine ⟨runTask_reserved, fun s tasks => ⟨runTasks_reserved_mono tasks s,
    runTasks_claimed_reserved tasks s⟩, fun photoName t outDir s => rfl⟩

/-- C2: collision resolution claims the base name when free, otherwise the
first free `<stem>_<n>[.<ext>]` candidate in increasing counter order from 1;
a name without an extension gets `<stem>_<n>` with no trailing dot.  The last
two conjuncts run the concrete scenario of two source files that both produce
base name `A.jpg` in the same target directory, in both processing orders:
the claims are `A.jpg` then `A_1.jpg` either way. -/
theorem claim_C2 :
    (∀ (photoName target_dir : String) (s : FsState),
       photoName.isEmpty = false →
       isFree s (pjoin target_dir photoName) →
       (get_output_path photoName target_dir s).1 = pjoin target_dir photoName) ∧
    (∀ (photoName target_dir : String) (s : FsState),
       photoName.isEmpty = false →
       ¬ isFree s (pjoin target_dir photoName) →
       ∃ n : Nat,
         (get_output_path photoName target_dir s).1 =
           pjoin target_dir (candidateName photoName (n + 1)) ∧
         isFree s (pjoin target_dir (candidateName photoName (n + 1))) ∧
         ∀ m < n, ¬ isFree s (pjoin target_dir (candidateName photoName (m + 1)))) ∧
    (∀ (photoName : String) (n : Nat),
       photoName.isEmpty = false →
       extension photoName = none →
       candidateName photoName n = file_stem photoName ++ "_" ++ Nat.repr n) ∧
    ((runTasks ⟨[], []⟩
        [⟨"A.jpg", ⟨1657843200, 0⟩, "out", true⟩,
         ⟨"A.jpg", ⟨1656633600, 0⟩, "out", true⟩]).1 =
      ["out/2022/July/jpg/A.jpg", "out/2022/July/jpg/A_1.jpg"]) ∧
    ((runTasks ⟨[], []⟩
        [⟨"A.jpg", ⟨1656633600, 0⟩, "out", true⟩,
         ⟨"A.jpg", ⟨1657843200, 0⟩, "out", true⟩]).1 =
      ["out/2022/July/jpg/A.jpg", "out/2022/July/jpg/A_1.jpg"]) := by
  have hfind : find_unique_filename "out/2022/July/jpg" "A.jpg"
      ⟨["out/2022/July/jpg/A.jpg"], ["out/2022/July/jpg/A.jpg"]⟩ =
      "out/2022/July/jpg/A_1.jpg" := by
    unfold find_unique_filename
    rw [(Nat.find_eq_zero _).mpr (by decide)]
    decide
  have hstep2 : ∀ secs : Int,
      destTargetDir "A.jpg" ⟨secs, 0⟩ "out" = "out/2022/July/jpg" →
      runTask ⟨["out/2022/July/jpg/A.jpg"], ["out/2022/July/jpg/A.jpg"]⟩
        ⟨"A.jpg", ⟨secs, 0⟩, "out", true⟩ =
        ("out/2022/July/jpg/A_1.jpg",
         ⟨["out/2022/July/jpg/A_1.jpg", "out/2022/July/jpg/A.jpg"],
          ["out/2022/July/jpg/A_1.jpg", "out/2022/July/jpg/A.jpg"]⟩) := by
    intro secs hdir
    unfold runTask
    dsimp only
    rw [hdir]
    unfold get_output_path
    dsimp only
    rw [if_neg (show ¬("A.jpg".isEmpty = true) from by decide),
      if_neg (show ¬ isFree ⟨["out/2022/July/jpg/A.jpg"], ["out/2022/July/jpg/A.jpg"]⟩
        (pjoin "out/2022/July/jpg" "A.jpg") from by decide),
      hfind]
    decide
  refine ⟨?_, ?_, ?_, ?_, ?_⟩
  · intro photoName target_dir s hne hfree
    unfold get_output_path
    dsimp only
    rw [if_neg (show ¬(photoName.isEmpty = true) from by simp [hne]), if_pos hfree]
  · intro photoName target_dir s hne hocc
    refine ⟨Nat.find (exists_free_candidate s target_dir photoName), ?_,
      Nat.find_spec (exists_free_candidate s target_dir photoName),
      fun m hm => Nat.find_min (exists_free_candidate s target_dir photoName) hm⟩
    unfold get_output_path
    dsimp only
    rw [if_neg (show ¬(photoName.isEmpty = true) from by simp [hne]), if_neg hocc]
    rfl
  · intro photoName n hne hext
    unfold candidateName
    rw [hext]
    dsimp only [Option.getD]
    rw [if_pos (show ("".isEmpty = true) from by decide),
      if_neg (show ¬(photoName.isEmpty = true) from by simp [hne])]
  · rw [show runTasks ⟨[], []⟩
        [⟨"A.jpg", ⟨1657843200, 0⟩, "out", true⟩, ⟨"A.jpg", ⟨1656633600, 0⟩, "out", true⟩] =
      ((runTask ⟨[], []⟩ ⟨"A.jpg", ⟨1657843200, 0⟩, "out", true⟩).1 ::
        (runTasks (runTask ⟨[], []⟩ ⟨"A.jpg", ⟨1657843200, 0⟩, "out", true⟩).2
          [⟨"A.jpg", ⟨1656633600, 0⟩, "out", true⟩]).1,
       (runTasks (runTask ⟨[], []⟩ ⟨"A.jpg", ⟨1657843200, 0⟩, "out", true⟩).2
          [⟨"A.jpg", ⟨1656633600, 0⟩, "out", true⟩]).2) from rfl]
    rw [show runTask ⟨[], []⟩ ⟨"A.jpg", ⟨1657843200, 0⟩, "out", true⟩ =
        ("out/2022/July/jpg/A.jpg",
         ⟨["out/2022/July/jpg/A.jpg"], ["out/2022/July/jpg/A.jpg"]⟩) from by decide]
    dsimp only
    rw [show (runTasks ⟨["out/2022/July/jpg/A.jpg"], ["out/2022/July/jpg/A.jpg"]⟩
        [⟨"A.jpg", ⟨1656633600, 0⟩, "out", true⟩]).1 =
      [(runTask ⟨["out/2022/July/jpg/A.jpg"], ["out/2022/July/jpg/A.jpg"]⟩
        ⟨"A.jpg", ⟨1656633600, 0⟩, "out", true⟩).1] from rfl]
    rw [hstep2 1656633600 (by decide)]
  · rw [show runTasks ⟨[], []⟩
        [⟨"A.jpg", ⟨1656633600, 0⟩, "out", true⟩, ⟨"A.jpg", ⟨1657843200, 0⟩, "out", true⟩] =
      ((runTask ⟨[], []⟩ ⟨"A.jpg", ⟨1656633600, 0⟩, "out", true⟩).1 ::
        (runTasks (runTask ⟨[], []⟩ ⟨"A.jpg", ⟨1656633600, 0⟩, "out", true⟩).2
          [⟨"A.jpg", ⟨1657843200, 0⟩, "out", true⟩]).1,
       (runTasks (runTask ⟨[], []⟩ ⟨"A.jpg", ⟨1656633600, 0⟩, "out", true⟩).2
          [⟨"A.jpg", ⟨1657843200, 0⟩, "out", true⟩]).2) from rfl]
    rw [show runTask ⟨[], []⟩ ⟨"A.jpg", ⟨1656633600, 0⟩, "out", true⟩ =
        ("out/2022/July/jpg/A.jpg",
         ⟨["out/2022/July/jpg/A.jpg"], ["out/2022/July/jpg/A.jpg"]⟩) from by decide]
    dsimp only
    rw [show (runTasks ⟨["out/2022/July/jpg/A.jpg"], ["out/2022/July/jpg/A.jpg"]⟩
        [⟨"A.jpg", ⟨1657843200, 0⟩, "out", true⟩]).1 =
      [(runTask ⟨["out/2022/July/jpg/A.jpg"], ["out/2022/July/jpg/A.jpg"]⟩
        ⟨"A.jpg", ⟨1657843200, 0⟩, "out", true⟩).1] from rfl]
    rw [hstep2 1657843200 (by decide)]

/-- C2 witness: the hypothesised conjuncts of `claim_C2` applied at concrete
inputs — a free base name is claimed unchanged, an occupied one yields the
first free counter candidate, and an extension-free name gets no dot. -/
theorem claim_C2_witness :
    (get_output_path "A.jpg" "d" ⟨[], []⟩).1 = pjoin "d" "A.jpg" ∧
    (∃ n : Nat,
       (get_output_path "A.jpg" "d" ⟨[pjoin "d" "A.jpg"], []⟩).1 =
         pjoin "d" (candidateName "A.jpg" (n + 1)) ∧
       isFree ⟨[pjoin "d" "A.jpg"], []⟩ (pjoin "d" (candidateName "A.jpg" (n + 1))) ∧
       ∀ m < n, ¬ isFree ⟨[pjoin "d" "A.jpg"], []⟩
         (pjoin "d" (candidateName "A.jpg" (m + 1)))) ∧
    candidateName "archive" 3 = file_stem "archive" ++ "_" ++ Nat.repr 3 :=
  ⟨claim_C2.1 "A.jpg" "d" ⟨[], []⟩ (by decide) (by decide),
   claim_C2.2.1 "A.jpg" "d" ⟨[pjoin "d" "A.jpg"], []⟩ (by decide) (by decide),
   claim_C2.2.2.1 "archive" 3 (by decide) (by decide)⟩

/-- C8 witness: a task whose copy fails still keeps its reservation, and a
pre-existing reservation survives a later task. -/
theorem claim_C8_witness :
    (runTask ⟨[], []⟩ ⟨"A.jpg", ⟨1657843200, 0⟩, "out", false⟩).2.reserved =
      (runTask ⟨[], []⟩ ⟨"A.jpg", ⟨1657843200, 0⟩, "out", false⟩).1 :: [] ∧
    "keep" ∈ (runTasks ⟨["keep"], []⟩
      [⟨"A.jpg", ⟨1657843200, 0⟩, "out", false⟩]).2.reserved :=
  ⟨claim_C8.1 ⟨[], []⟩ ⟨"A.jpg", ⟨1657843200, 0⟩, "out", false⟩,
   (claim_C8.2.1 ⟨["keep"], []⟩
     [⟨"A.jpg", ⟨1657843200, 0⟩, "out", false⟩]).1 "keep" (by decide)⟩

/-- C3: the destination directory is
`<root>/<year>/<full English month name>/<lower-cased extension>`, with the
`no_ext` bucket taken exactly by names having no extension; extensions
differing only in letter case land in the same bucket; and the worked
example `IMG_01.JPG` resolved to 2022-07-15 lands at
`out/2022/July/jpg/IMG_01.JPG`. -/
theorem claim_C3 :
    (∀ (photoName : String) (t : Instant) (outDir e : String),
       extension photoName = some e →
       destTargetDir photoName t outDir =
         pjoin (pjoin (pjoin outDir (Int.repr (yearOf t))) (monthName (monthOf t)))
           (strToLower e)) ∧
    (∀ (photoName : String) (t : Instant) (outDir : String),
       extension photoName = none →
       destTargetDir photoName t outDir =
         pjoin (pjoin (pjoin outDir (Int.repr (yearOf t))) (monthName (monthOf t)))
           "no_ext") ∧
    (∀ (n₁ n₂ : String) (t : Instant) (outDir e₁ e₂ : String),
       extension n₁ = some e₁ → extension n₂ = some e₂ →
       strToLower e₁ = strToLower e₂ →
       destTargetDir n₁ t outDir = destTargetDir n₂ t outDir) ∧
    ((organize_and_update_file "IMG_01.JPG" ⟨1657843200, 0⟩ "out" ⟨[], []⟩).2.1 =
      "out/2022/July/jpg/IMG_01.JPG") ∧
    (destTargetDir "a.JPG" ⟨1657843200, 0⟩ "out" = "out/2022/July/jpg" ∧
     destTargetDir "b.jpg" ⟨1657843200, 0⟩ "out" = "out/2022/July/jpg") := by
  refine ⟨?_, ?_, ?_, by decide, by decide, by decide⟩
  · intro photoName t outDir e hext
    unfold destTargetDir
    rw [hext]
  · intro photoName t outDir hext
    unfold destTargetDir
    rw [hext]
  · intro n₁ n₂ t outDir e₁ e₂ h₁ h₂ hlow
    unfold destTargetDir
    rw [h₁, h₂]
    dsimp only
    rw [hlow]

/-- C3 witness: the three hypothesised conjuncts applied at concrete
inputs (an upper-case extension, an extension-free name, and the `.JPG`
versus `.jpg` bucket coincidence). -/
theorem claim_C3_witness :
    destTargetDir "IMG_01.JPG" ⟨1657843200, 0⟩ "out" =
      pjoin (pjoin (pjoin "out" (Int.repr (yearOf ⟨1657843200, 0⟩)))
        (monthName (monthOf ⟨1657843200, 0⟩))) (strToLower "JPG") ∧
    destTargetDir "archive" ⟨1657843200, 0⟩ "out" =
      pjoin (pjoin (pjoin "out" (Int.repr (yearOf ⟨1657843200, 0⟩)))
        (monthName (monthOf ⟨1657843200, 0⟩))) "no_ext" ∧
    destTargetDir "a.JPG" ⟨1657843200, 0⟩ "out" =
      destTargetDir "b.jpg" ⟨1657843200, 0⟩ "out" :=
  ⟨claim_C3.1 "IMG_01.JPG" ⟨1657843200, 0⟩ "out" "JPG" (by decide),
   claim_C3.2.1 "archive" ⟨1657843200, 0⟩ "out" (by decide),
   claim_C3.2.2.1 "a.JPG" "b.jpg" ⟨1657843200, 0⟩ "out" "JPG" "jpg"
     (by decide) (by decide) (by decide)⟩

/-- C9: after the copy, the destination's last-accessed and last-modified
times are both set to the same value, the resolved timestamp truncated to
whole Unix seconds with a zero nanosecond component; the effect trace ends
with the copy followed by that time-set, and the whole placement is
independent of the resolved timestamp's nanosecond component. -/
theorem claim_C9 :
    (∀ (photoName : String) (t : Instant) (outDir : String) (s : FsState),
       (organize_and_update_file photoName t outDir s).1 =
         [Effect.createDirAll
            (pjoin (pjoin outDir (Int.repr (yearOf t))) (monthName (monthOf t))),
          Effect.createDirAll (destTargetDir photoName t outDir)] ++
         [Effect.copy photoName (organize_and_update_file photoName t outDir s).2.1,
          Effect.setFileTimes (organize_and_update_file photoName t outDir s).2.1
            (timestampOf t) 0 (timestampOf t) 0]) ∧
    (∀ (photoName : String) (secs : Int) (nanos : Nat) (outDir : String) (s : FsState),
       organize_and_update_file photoName ⟨secs, nanos⟩ outDir s =
         organize_and_update_file photoName ⟨secs, 0⟩ outDir s) := by
  exact ⟨fun photoName t outDir s => rfl, fun photoName secs nanos outDir s => rfl⟩

/-- C10: the extension exclusion of the placement walk is case-sensitive —
a file is dropped exactly when its extension is the exact string `json`,
`zip`, or `html`, while `ZIP`, `Json`, or `jSON` files pass the filter and
are processed like any other candidate. -/
theorem claim_C10 :
    (∀ name : String,
       keepsForPlacement name = false ↔
         (extension name = some "json" ∨ extension name = some "zip" ∨
          extension name = some "html")) ∧
    keepsForPlacement "archive.ZIP" = true ∧
    keepsForPlacement "page.Json" = true ∧
    keepsForPlacement "data.jSON" = true ∧
    keepsForPlacement "data.json" = false ∧
    keepsForPlacement "archive.zip" = false ∧
    keepsForPlacement "page.html" = false := by
  refine ⟨?_, by decide, by decide, by decide, by decide, by decide, by decide⟩
  intro name
  unfold keepsForPlacement
  simp [Bool.and_eq_false_iff]
  tauto

/-! ### Index-provenance lemmas -/

theorem mem_parse_metadata_files {files : List SidecarFile} {kv : String × Instant}
    (h : kv ∈ parse_metadata_files files) :
    ∃ f ∈ files, sidecarEntry f = some kv := by
  unfold parse_metadata_files at h
  suffices H : ∀ acc : List (String × Instant),
      kv ∈ files.foldl
        (fun m f => match sidecarEntry f with | some kv2 => kv2 :: m | none => m) acc →
      kv ∈ acc ∨ ∃ f ∈ files, sidecarEntry f = some kv by
    rcases H [] h with h0 | h1
    · simp at h0
    · exact h1
  clear h
  induction files with
  | nil => intro acc hm; exact Or.inl hm
  | cons f rest ih =>
    intro acc hm
    simp only [List.foldl_cons] at hm
    rcases ih _ hm with hacc | ⟨g, hg, he⟩
    · cases hse : sidecarEntry f with
      | none =>
        simp only [hse] at hacc
        exact Or.inl hacc
      | some kv2 =>
        simp only [hse] at hacc
        rcases List.mem_cons.mp hacc with rfl | hin
        · exact Or.inr ⟨f, List.mem_cons_self f rest, hse⟩
        · exact Or.inl hin
    · exact Or.inr ⟨g, List.mem_cons_of_mem f hg, he⟩

theorem lookupIndex_provenance {files : List SidecarFile} {name : String} {t : Instant}
    (h : lookupIndex (parse_metadata_files files) name = some t) :
    ∃ f ∈ files, sidecarEntry f = some (name, t) := by
  unfold lookupIndex at h
  cases hf : (parse_metadata_files files).find? (fun kv => kv.1 == name) with
  | none => rw [hf] at h; simp at h
  | some kv =>
    rw [hf] at h
    simp only [Option.map_some'] at h
    have hmem := List.mem_of_find?_eq_some hf
    have hpred := List.find?_some hf
    have hkv : kv = (name, t) := by
      obtain ⟨k, v⟩ := kv
      simp only at h
      simp only [beq_iff_eq] at hpred
      simp [hpred, Option.some.injEq] at h ⊢
      exact h
    rw [hkv] at hmem
    exact mem_parse_metadata_files hmem

theorem sidecarEntry_shape {f : SidecarFile} {kv : String × Instant}
    (h : sidecarEntry f = some kv) :
    ∃ ts n, f = SidecarFile.json (some kv.1) (some ts) ∧
      parseI64 ts = some n ∧ kv.2 = ⟨n, 0⟩ := by
  cases f with
  | unreadable => simp [sidecarEntry] at h
  | invalidJson => simp [sidecarEntry] at h
  | json title tstamp =>
    cases title with
    | none => simp [sidecarEntry] at h
    | some ti =>
      cases tstamp with
      | none => simp [sidecarEntry] at h
      | some ts =>
        simp only [sidecarEntry] at h
        cases hp : parseI64 ts with
        | none => rw [hp] at h; simp at h
        | some n =>
          rw [hp] at h
          dsimp only at h
          unfold fromTimestamp at h
          by_cases hr : chronoMinTimestamp ≤ n ∧ n ≤ chronoMaxTimestamp
          · rw [if_pos hr] at h
            dsimp only at h
            simp only [Option.some.injEq] at h
            refine ⟨ts, n, ?_, hp, ?_⟩
            · rw [← h]
            · rw [← h]
          · rw [if_neg hr] at h
            simp at h

/-- C4: a file whose exact base name is a key of the metadata index resolves
to the sidecar timestamp — epoch seconds converted to a UTC instant with a
zero sub-second part — regardless of any embedded EXIF tag the file carries
(`fi.exifDateTimeOriginal` is arbitrary); and every index entry originates
from a sidecar whose `title` equals that base name by exact string equality. -/
theorem claim_C4 (files : List SidecarFile) (fi : FileInfo) (t : Instant)
    (h : lookupIndex (parse_metadata_files files) fi.name = some t) :
    process_file (parse_metadata_files files) fi =
      some (t, TimeSource.sidecarMetadata) ∧
    ∃ f ∈ files, ∃ ts : String, ∃ n : Int,
      f = SidecarFile.json (some fi.name) (some ts) ∧
      parseI64 ts = some n ∧ t = ⟨n, 0⟩ := by
  constructor
  · unfold process_file
    rw [h]
  · obtain ⟨f, hf, he⟩ := lookupIndex_provenance h
    obtain ⟨ts, n, hshape, hp, ht⟩ := sidecarEntry_shape he
    exact ⟨f, hf, ts, n, hshape, hp, ht⟩

/-- C4 witness: a sidecar mapping `A.jpg` to epoch second 1657843200
overrides a conflicting embedded tag on the photo. -/
theorem claim_C4_witness :
    process_file
      (parse_metadata_files [SidecarFile.json (some "A.jpg") (some "1657843200")])
      ⟨"A.jpg", true, some "1999-01-01 00:00:00", none, ⟨0, 0⟩⟩ =
      some (⟨1657843200, 0⟩, TimeSource.sidecarMetadata) ∧
    ∃ f ∈ [SidecarFile.json (some "A.jpg") (some "1657843200")],
      ∃ ts : String, ∃ n : Int,
        f = SidecarFile.json (some "A.jpg") (some ts) ∧
        parseI64 ts = some n ∧ (⟨1657843200, 0⟩ : Instant) = ⟨n, 0⟩ :=
  claim_C4 [SidecarFile.json (some "A.jpg") (some "1657843200")]
    ⟨"A.jpg", true, some "1999-01-01 00:00:00", none, ⟨0, 0⟩⟩
    ⟨1657843200, 0⟩ (by decide)

/-- C5: with no sidecar match, a present embedded `DateTimeOriginal` value
parsing as `YYYY-MM-DD HH:MM:SS` resolves to exactly that naive date-time
read directly on the UTC timeline — the instant's seconds are the civil
fields' proleptic-Gregorian epoch seconds with no timezone offset added. -/
theorem claim_C5 (index : List (String × Instant)) (fi : FileInfo)
    (dto : String) (ndt : NaiveDT)
    (h1 : lookupIndex index fi.name = none)
    (h2 : fi.readable = true)
    (h3 : fi.exifDateTimeOriginal = some dto)
    (h4 : parse_from_str dto = some ndt) :
    process_file index fi =
      some (naiveToInstant ndt, TimeSource.embeddedCaptureTag) ∧
    naiveToInstant ndt =
      ⟨daysFromCivil ndt.year ndt.month ndt.day * 86400 +
        ((ndt.hour * 3600 + ndt.minute * 60 + ndt.second : Nat) : Int), 0⟩ := by
  constructor
  · unfold process_file process_photo_file
    simp only [h1, h2, h3, h4, if_true]
  · rfl

/-- C5 witness: a file with no sidecar entry and the tag value
`2022-07-15 12:34:56` resolves to Unix second 1657888496 (that civil time
at UTC), with no timezone shift. -/
theorem claim_C5_witness :
    process_file [] ⟨"x.jpg", true, some "2022-07-15 12:34:56", none, ⟨0, 0⟩⟩ =
      some (naiveToInstant ⟨2022, 7, 15, 12, 34, 56⟩,
        TimeSource.embeddedCaptureTag) ∧
    naiveToInstant ⟨2022, 7, 15, 12, 34, 56⟩ =
      ⟨daysFromCivil 2022 7 15 * 86400 + ((12 * 3600 + 34 * 60 + 56 : Nat) : Int), 0⟩ :=
  claim_C5 [] ⟨"x.jpg", true, some "2022-07-15 12:34:56", none, ⟨0, 0⟩⟩
    "2022-07-15 12:34:56" ⟨2022, 7, 15, 12, 34, 56⟩
    (by decide) (by decide) (by decide) (by decide)

/-- C6: a readable file with neither a sidecar match nor a parseable
embedded tag still resolves to exactly one timestamp: the filesystem
creation time, or the modification time when the host filesystem reports no
creation time. -/
theorem claim_C6 (index : List (String × Instant)) (fi : FileInfo)
    (hread : fi.readable = true)
    (hside : lookupIndex index fi.name = none)
    (htag : ∀ dto, fi.exifDateTimeOriginal = some dto → parse_from_str dto = none) :
    process_file index fi =
      some (fi.created.getD fi.modified, TimeSource.filesystemTime) ∧
    process_photo_file_with_creation_time fi = some (fi.created.getD fi.modified) ∧
    (∀ c, fi.created = some c → fi.created.getD fi.modified = c) ∧
    (fi.created = none → fi.created.getD fi.modified = fi.modified) := by
  refine ⟨?_, ?_, ?_, ?_⟩
  · cases hdto : fi.exifDateTimeOriginal with
    | none =>
      simp [process_file, process_photo_file, process_photo_file_with_creation_time,
        hside, hdto, hread]
    | some dto =>
      simp [process_file, process_photo_file, process_photo_file_with_creation_time,
        hside, hdto, hread, htag dto hdto]
  · simp [process_photo_file_with_creation_time, hread]
  · intro c hc; rw [hc]; rfl
  · intro hc; rw [hc]; rfl

/-- C6 witness: a readable file with no EXIF data and no creation time
resolves to its modification time. -/
theorem claim_C6_witness :
    process_file [] ⟨"x.bin", true, none, none, ⟨12345, 500⟩⟩ =
      some ((none : Option Instant).getD ⟨12345, 500⟩, TimeSource.filesystemTime) ∧
    process_photo_file_with_creation_time ⟨"x.bin", true, none, none, ⟨12345, 500⟩⟩ =
      some ((none : Option Instant).getD ⟨12345, 500⟩) ∧
    (∀ c, (none : Option Instant) = some c →
      (none : Option Instant).getD (⟨12345, 500⟩ : Instant) = c) ∧
    ((none : Option Instant) = none →
      (none : Option Instant).getD (⟨12345, 500⟩ : Instant) = ⟨12345, 500⟩) :=
  claim_C6 [] ⟨"x.bin", true, none, none, ⟨12345, 500⟩⟩
    (by decide) (by decide) (fun dto h => Option.noConfusion h)

/-- C7: a sidecar file that is unreadable, fails to parse, lacks `title` or
`photoTakenTime.timestamp`, or carries a non-integer timestamp such as
`"not-a-number"` contributes nothing to the index and does not disturb the
processing of the other sidecar files; a photo not found in the index falls
through to the embedded-tag / filesystem-time chain. -/
theorem claim_C7 (pre post : List SidecarFile) (f : SidecarFile)
    (h : sidecarEntry f = none) :
    parse_metadata_files (pre ++ f :: post) = parse_metadata_files (pre ++ post) ∧
    sidecarEntry (SidecarFile.json (some "A.jpg") (some "not-a-number")) = none ∧
    sidecarEntry SidecarFile.invalidJson = none ∧
    sidecarEntry SidecarFile.unreadable = none ∧
    sidecarEntry (SidecarFile.json none (some "123")) = none ∧
    sidecarEntry (SidecarFile.json (some "A.jpg") none) = none ∧
    (∀ fi : FileInfo,
       lookupIndex (parse_metadata_files (pre ++ f :: post)) fi.name = none →
       process_file (parse_metadata_files (pre ++ f :: post)) fi =
         process_photo_file fi) := by
  refine ⟨?_, by decide, by decide, by decide, by decide, by decide, ?_⟩
  · unfold parse_metadata_files
    rw [List.foldl_append, List.foldl_append, List.foldl_cons]
    congr 1
    simp [h]
  · intro fi hl
    unfold process_file
    rw [hl]

/-- C7 witness: a sidecar whose timestamp field is `"not-a-number"` yields
an index identical to the empty one. -/
theorem claim_C7_witness :
    parse_metadata_files [SidecarFile.json (some "A.jpg") (some "not-a-number")] =
      parse_metadata_files [] ∧
    sidecarEntry (SidecarFile.json (some "A.jpg") (some "not-a-number")) = none :=
  ⟨(claim_C7 [] [] (SidecarFile.json (some "A.jpg") (some "not-a-number"))
      (by decide)).1,
   (claim_C7 [] [] (SidecarFile.json (some "A.jpg") (some "not-a-number"))
      (by decide)).2.1⟩

end TakeoutExifFix
